import Mathlib

/-!
Verification of the clause-analysis pipeline of `legal_extractor_app.py`
(LegalAnalyzerApp).  The pure core of the application is embedded shallowly:

* `summarize_chunks` / `summarize_text`  — the 1000-character chunking
  summarizer (the external summarization model is a function parameter);
* `splitSentences` / `extract_clauses`   — sentence splitting on
  `(?<=[.!?]) +` and keyword-category clause extraction;
* `find_risky_clauses`                   — the risk-keyword filter;
* `tokenize` / `tf` / `df` / `idf` / `cosineSimVal` /
  `compare_with_standard_clauses`        — the per-pair TF-IDF cosine
  similarity comparison (scikit-learn `TfidfVectorizer` with its default
  token pattern, smooth idf and l2 norm, followed by `cosine_similarity`;
  the empty-vocabulary `ValueError` is modelled with `Except`);
* `rewrite_clause_with_ai` / `rewriteHandler` — the chat-completion rewrite
  call (the external service is a function parameter; the list of issued
  prompts records how often it is invoked).

Strings are modelled over their character lists; machine floats are
modelled by real numbers; Python `round(x, 2)` (half-to-even) is
`pyRound2`.
-/

/-- A word character for the default scikit-learn token pattern
`(?u)\b\w\w+\b`, restricted to ASCII: letters, digits and underscore. -/
def isWordChar (c : Char) : Bool := c.isAlphanum || c == '_'

/-- Python's ASCII `str.lower()`, character-wise over the string data. -/
def lowerData (s : String) : List Char := s.data.map Char.toLower

/-- Maximal runs of word characters in a character list. -/
def wordRuns : List Char → List Char → List (List Char)
  | [], acc => if acc.isEmpty then [] else [acc.reverse]
  | c :: rest, acc =>
    if isWordChar c then wordRuns rest (c :: acc)
    else if acc.isEmpty then wordRuns rest []
    else acc.reverse :: wordRuns rest []

/-- Tokenization performed by `TfidfVectorizer` with default settings:
lowercase, then keep every maximal run of word characters of length at
least two (`token_pattern = r"(?u)\b\w\w+\b"`). -/
def tokenize (s : String) : List String :=
  ((wordRuns (lowerData s) []).map (fun cs => String.mk cs)).filter
    (fun t => 2 ≤ t.length)

/-- Vocabulary that `TfidfVectorizer` builds over the two documents
`[d1, d2]` (as a duplicate-free list; its order is irrelevant here). -/
def vocab (d1 d2 : String) : List String := (tokenize d1 ++ tokenize d2).dedup

/-- Raw term frequency of token `t` in document `d`. -/
def tf (d t : String) : Nat := (tokenize d).count t

/-- Document frequency of token `t` over the two-document corpus. -/
def df (d1 d2 t : String) : Nat :=
  (if 0 < tf d1 t then 1 else 0) + (if 0 < tf d2 t then 1 else 0)

/-- Does `pat` occur at the head of `l`? (building block of Python's
substring containment test). -/
def headMatches : List Char → List Char → Bool
  | [], _ => true
  | _ :: _, [] => false
  | p :: ps, c :: cs => p == c && headMatches ps cs

/-- Does `l` contain `pat` as a contiguous substring?  This is Python's
`pat in l` on strings, over character lists. -/
def containsChars (pat : List Char) : List Char → Bool
  | [] => pat.isEmpty
  | c :: cs => headMatches pat (c :: cs) || containsChars pat cs

/-- The test `containsCI s k` is Python's `k.lower() in s.lower()`. -/
def containsCI (s k : String) : Bool :=
  containsChars (lowerData k) (lowerData s)

/-- Function `find_risky_clauses` of `legal_extractor_app.py`: keep, in order,
every clause containing some risky keyword case-insensitively. -/
def find_risky_clauses (clauses risky_keywords : List String) : List String :=
  clauses.filter (fun clause => risky_keywords.any (fun k => containsCI clause k))

/-- The fixed `clause_keywords` configuration of the application,
as an association list in Python dict insertion order. -/
def clause_keywords : List (String × List String) :=
  [("Confidentiality", ["confidential", "non-disclosure", "privacy"]),
   ("Termination", ["terminate", "termination", "cancel", "end of agreement"]),
   ("Payment", ["payment", "compensation", "fee", "remuneration"]),
   ("Governing Law", ["jurisdiction", "governing law", "under the laws of"]),
   ("Indemnity", ["indemnify", "liability", "hold harmless"]),
   ("Force Majeure", ["force majeure", "act of god", "unforeseen circumstances"]),
   ("Dispute Resolution", ["arbitration", "dispute", "litigation", "settlement"])]

/-- Is this (the previous character) one of the sentence enders `.!?`
of the lookbehind `(?<=[.!?])`? -/
def isSentEnd (h : Option Char) : Bool :=
  h == some '.' || h == some '!' || h == some '?'

/-- Worker for `re.split(r"(?<=[.!?]) +", text)`: `acc` holds the
characters of the current segment in reverse, so `acc.head?` is the
character directly before the current position (the lookbehind); `inSep`
records that the previous characters were spaces of the current greedy
separator match ` +`. -/
def sentSplitAux : List Char → List Char → Bool → List String
  | [], acc, _ => [String.mk acc.reverse]
  | c :: rest, acc, inSep =>
    if inSep && c == ' ' then
      sentSplitAux rest acc true
    else if c == ' ' && isSentEnd acc.head? then
      String.mk acc.reverse :: sentSplitAux rest [] true
    else
      sentSplitAux rest (c :: acc) false

/-- Model of `re.split(r"(?<=[.!?]) +", text)`: split at every maximal run of
spaces directly preceded by `.`, `!` or `?`. -/
def splitSentences (text : String) : List String := sentSplitAux text.data [] false

/-- The matched-sentence list built for one keyword category inside
`extract_clauses`: the kept sentences, stripped. -/
def matchedSentences (sentences keywords : List String) : List String :=
  (sentences.filter (fun s => keywords.any (fun k => containsCI s k))).map
    (fun s => s.trim)

/-- Function `extract_clauses` of `legal_extractor_app.py`: for each configured
category (in insertion order) keep the stripped sentences containing one
of its keywords; categories with no match are left out of the dict. -/
def extract_clauses (text : String) : List (String × List String) :=
  clause_keywords.filterMap (fun ck =>
    let matched := matchedSentences (splitSentences text) ck.2
    if matched.isEmpty then none else some (ck.1, matched))

/-- The chunk list `[text[i:i+1000] for i in range(0, len(text), 1000)]`
of `summarize_text`; `range(0, L, 1000)` has `(L + 999) / 1000` elements
`0, 1000, 2000, ...`. -/
def summarize_chunks (text : String) : List String :=
  (List.range' 0 ((text.length + 999) / 1000) 1000).map
    (fun i => String.mk ((text.data.drop i).take 1000))

/-- Function `summarize_text` of `legal_extractor_app.py`, with the external
summarization model abstracted as `f`: summarize every chunk and join the
results with a single space. -/
def summarize_text (f : String → String) (text : String) : String :=
  String.intercalate " " ((summarize_chunks text).map f)

/-- The fixed prompt template of `rewrite_clause_with_ai`. -/
def rewrite_prompt (clause : String) : String :=
  "Rewrite the following legal clause in a clearer, more standard form:\n\n\"" ++
    clause ++ "\""

/-- Function `rewrite_clause_with_ai` of `legal_extractor_app.py`, with the
chat-completion service abstracted as `chat`.  The second component
records the prompts sent to the external service (the body issues exactly
one call, unconditionally); the response is stripped. -/
def rewrite_clause_with_ai (chat : String → String) (clause : String) :
    String × List String :=
  let prompt := rewrite_prompt clause
  ((chat prompt).trim, [prompt])

/-- The rewrite button handler of the app: `if clause_to_rewrite:` guards
the call, the empty string being falsy; on blank input an error message is
shown (`none`) and the external service is not invoked. -/
def rewriteHandler (chat : String → String) (clause_to_rewrite : String) :
    Option String × List String :=
  if clause_to_rewrite ≠ "" then
    let r := rewrite_clause_with_ai chat clause_to_rewrite
    (some r.1, r.2)
  else (none, [])

/-- Smooth inverse document frequency used by `TfidfVectorizer`
(`smooth_idf=True`): `ln((1 + n) / (1 + df)) + 1` with `n = 2` documents. -/
noncomputable def idf (d1 d2 t : String) : ℝ :=
  Real.log (3 / (1 + (df d1 d2 t : ℝ))) + 1

/-- The tf-idf weight of token `t` for document `d` in the two-document
corpus `[d1, d2]`. -/
noncomputable def tfidfWeight (d1 d2 d t : String) : ℝ :=
  (tf d t : ℝ) * idf d1 d2 t

/-- Euclidean inner product of the tf-idf vectors of `a` and `b` over the
vocabulary of the corpus `[d1, d2]`. -/
noncomputable def dotW (d1 d2 a b : String) : ℝ :=
  ∑ t ∈ (vocab d1 d2).toFinset, tfidfWeight d1 d2 a t * tfidfWeight d1 d2 b t

/-- Cosine similarity of the tf-idf vectors of `a` and `b` (the l2
normalization of the tf-idf rows followed by `cosine_similarity`); a zero
vector yields similarity `0`, matching scikit-learn. -/
noncomputable def cosineSimVal (a b : String) : ℝ :=
  dotW a b a b / (Real.sqrt (dotW a b a a) * Real.sqrt (dotW a b b b))

/-- Model of `TfidfVectorizer().fit_transform([a, b])` followed by
`cosine_similarity`: raises `ValueError: empty vocabulary` when neither
document has a token, otherwise yields the cosine similarity. -/
noncomputable def tfidfCosine (a b : String) : Except Unit ℝ :=
  if vocab a b = [] then .error () else .ok (cosineSimVal a b)

/-- Python's `round(x, 2)` on real values: round half to even at the
second decimal. -/
noncomputable def pyRound2 (x : ℝ) : ℝ :=
  (if Int.fract (100 * x) = 1 / 2
    then ((2 * round (100 * x / 2) : ℤ) : ℝ)
    else ((round (100 * x) : ℤ) : ℝ)) / 100

open Classical in
/-- The inner loop of `compare_with_standard_clauses`: fold over the
references with state `(max_similarity, best_match)`, starting from
`(0, "")`, updating only on a strictly greater similarity; a vectorizer
error aborts the whole call. -/
noncomputable def compareLoop (clause : String) :
    List (String × String) → ℝ → String → Except Unit (ℝ × String)
  | [], maxSim, best => .ok (maxSim, best)
  | (_, standard) :: rest, maxSim, best =>
    match tfidfCosine clause standard with
    | .error e => .error e
    | .ok sim =>
      if maxSim < sim then compareLoop clause rest sim standard
      else compareLoop clause rest maxSim best

/-- Function `compare_with_standard_clauses` of `legal_extractor_app.py`: for each
clause, scan the references in dict order and report
`(clause, best_match, round(max_similarity, 2))`. -/
noncomputable def compare_with_standard_clauses :
    List String → List (String × String) → Except Unit (List (String × String × ℝ))
  | [], _ => .ok []
  | clause :: rest, refs => do
    let r ← compareLoop clause refs 0 ""
    let tail ← compare_with_standard_clauses rest refs
    pure ((clause, r.2, pyRound2 r.1) :: tail)

/-- C2 counterexample: on the empty-string clause, `rewrite_clause_with_ai`
does not reject the input — it still issues exactly one external
chat-completion call (with the prompt built from the empty clause), so the
external service is invoked once, not zero times, and no error is raised. -/
theorem C2_counterexample :
    (rewrite_clause_with_ai (fun _ => "response") "").2 = [rewrite_prompt ""] ∧
    (rewrite_clause_with_ai (fun _ => "response") "").2.length ≠ 0 := by
  exact ⟨rfl, by simp [rewrite_clause_with_ai]⟩

/-- C2 (amended): `rewrite_clause_with_ai` itself makes exactly one
external call on every input, including the empty clause; the empty-input
rejection lives in the app's rewrite button handler, which on blank input
shows an error and performs zero external calls. -/
theorem C2_rewrite_empty_guard :
    ∀ chat : String → String,
      rewriteHandler chat "" = (none, []) ∧
      (∀ clause, (rewrite_clause_with_ai chat clause).2 = [rewrite_prompt clause]) := by
  intro chat
  exact ⟨rfl, fun _ => rfl⟩

/-- C3: `find_risky_clauses` returns an order-preserving subsequence of
its input; every returned clause contains some risk keyword
case-insensitively; every input clause containing such a keyword is
returned; and the empty input yields the empty list rather than an error. -/
theorem C3_find_risky_spec :
    ∀ (clauses kws : List String),
      (find_risky_clauses clauses kws).Sublist clauses ∧
      (∀ c ∈ find_risky_clauses clauses kws, ∃ k ∈ kws, containsCI c k = true) ∧
      (∀ c ∈ clauses,
        (∃ k ∈ kws, containsCI c k = true) → c ∈ find_risky_clauses clauses kws) ∧
      find_risky_clauses [] kws = [] := by
  intro clauses kws
  refine ⟨List.filter_sublist _, ?_, ?_, rfl⟩
  · intro c hc
    rw [find_risky_clauses, List.mem_filter] at hc
    exact List.any_eq_true.mp hc.2
  · intro c hc hex
    rw [find_risky_clauses, List.mem_filter]
    exact ⟨hc, List.any_eq_true.mpr hex⟩

/-- C3 witness: concrete run on a clause list containing one risky and
one harmless clause. -/
theorem C3_find_risky_witness :
    (find_risky_clauses ["A penalty applies.", "All good."] ["penalty"]).Sublist
      ["A penalty applies.", "All good."] ∧
    "A penalty applies." ∈
      find_risky_clauses ["A penalty applies.", "All good."] ["penalty"] :=
  ⟨(C3_find_risky_spec _ _).1,
   (C3_find_risky_spec _ _).2.2.1 "A penalty applies." (by decide)
     ⟨"penalty", by decide, by decide⟩⟩

/-- Mapping over `range' s n 1000` is mapping the shifted function over
`range' 0 n 1000`. -/
theorem map_range'_shift {α : Type} (n : ℕ) : ∀ (s : ℕ) (g : ℕ → α),
    (List.range' s n 1000).map g = (List.range' 0 n 1000).map (fun i => g (s + i)) := by
  induction n with
  | zero => intro s g; rfl
  | succ n ih =>
    intro s g
    show g s :: (List.range' (s + 1000) n 1000).map g = _
    rw [ih (s + 1000) g]
    show _ = g (s + 0) :: (List.range' (0 + 1000) n 1000).map (fun i => g (s + i))
    rw [ih (0 + 1000) (fun i => g (s + i))]
    simp [Nat.add_assoc]

/-- The `1000`-character chunks of a character list concatenate back to
the list when their number is `ceil(length / 1000)`. -/
theorem chunks_flatten (n : ℕ) : ∀ cs : List Char, n = (cs.length + 999) / 1000 →
    ((List.range' 0 n 1000).map (fun i => (cs.drop i).take 1000)).flatten = cs := by
  induction n with
  | zero =>
    intro cs h
    have h0 : cs.length = 0 := by omega
    rw [List.eq_nil_of_length_eq_zero h0]
    rfl
  | succ n ih =>
    intro cs h
    show (((0 : ℕ) :: List.range' 1000 n 1000).map
        (fun i => (cs.drop i).take 1000)).flatten = cs
    rw [List.map_cons, List.flatten_cons, map_range'_shift]
    have h3 : (List.range' 0 n 1000).map (fun i => (cs.drop (1000 + i)).take 1000)
        = (List.range' 0 n 1000).map (fun i => (((cs.drop 1000).drop i)).take 1000) := by
      apply List.map_congr_left
      intro i _
      rw [List.drop_drop]
    rw [h3, ih (cs.drop 1000) (by rw [List.length_drop]; omega)]
    simp only [List.drop_zero]
    exact List.take_append_drop 1000 cs

/-- C6: `summarize_text` splits the text into `ceil(L/1000)` chunks, the
`i`-th chunk being exactly characters `[1000*i, 1000*i + 1000)`; the
chunks concatenate back to the whole text (fixed-size, non-overlapping);
every chunk but the last has exactly 1000 characters and every chunk is a
non-empty slice of at most 1000 characters; the result applies the
external summarizer once per chunk and joins the summaries with a single
space in chunk order. -/
theorem C6_summarize_spec : ∀ (f : String → String) (text : String),
    (summarize_chunks text).length = (text.length + 999) / 1000 ∧
    (∀ i, ∀ hi : i < (summarize_chunks text).length,
      (summarize_chunks text).get ⟨i, hi⟩ =
        String.mk ((text.data.drop (1000 * i)).take 1000)) ∧
    ((summarize_chunks text).map String.data).flatten = text.data ∧
    (∀ i, ∀ hi : i + 1 < (summarize_chunks text).length,
      ((summarize_chunks text).get ⟨i, by omega⟩).length = 1000) ∧
    (∀ i, ∀ hi : i < (summarize_chunks text).length,
      0 < ((summarize_chunks text).get ⟨i, hi⟩).length ∧
        ((summarize_chunks text).get ⟨i, hi⟩).length ≤ 1000) ∧
    summarize_text f text = String.intercalate " " ((summarize_chunks text).map f) := by
  intro f text
  have hlen : (summarize_chunks text).length = (text.length + 999) / 1000 := by
    simp [summarize_chunks]
  have hget : ∀ i, ∀ hi : i < (summarize_chunks text).length,
      (summarize_chunks text).get ⟨i, hi⟩ =
        String.mk ((text.data.drop (1000 * i)).take 1000) := by
    intro i hi
    have hi2 : i < (List.range' 0 ((text.length + 999) / 1000) 1000).length := by
      simpa [summarize_chunks] using hi
    simp [summarize_chunks, List.getElem_range']
  have hL : text.length = text.data.length := rfl
  have hchunklen : ∀ i, ∀ hi : i < (summarize_chunks text).length,
      ((summarize_chunks text).get ⟨i, hi⟩).length =
        min 1000 (text.data.length - 1000 * i) := by
    intro i hi
    rw [hget i hi]
    show ((text.data.drop (1000 * i)).take 1000).length = _
    rw [List.length_take, List.length_drop]
  refine ⟨hlen, hget, ?_, ?_, ?_, rfl⟩
  · show ((summarize_chunks text).map String.data).flatten = text.data
    have : (summarize_chunks text).map String.data =
        (List.range' 0 ((text.data.length + 999) / 1000) 1000).map
          (fun i => (text.data.drop i).take 1000) := by
      rw [summarize_chunks, List.map_map]
      rfl
    rw [this]
    exact chunks_flatten _ text.data rfl
  · intro i hi
    rw [hchunklen i (by omega)]
    rw [hlen] at hi
    rw [hL] at hi
    omega
  · intro i hi
    rw [hchunklen i hi]
    rw [hlen, hL] at hi
    constructor
    · omega
    · omega

/-- The length of a string built from a character list. -/
theorem string_length_mk (l : List Char) : (String.mk l).length = l.length := rfl

/-- C6 witness: a 2500-character text is split into 3 chunks of lengths
1000, 1000 and 500. -/
theorem C6_summarize_witness :
    (summarize_chunks (String.mk (List.replicate 2500 'x'))).length = 3 ∧
    (summarize_chunks (String.mk (List.replicate 2500 'x'))).map String.length =
      [1000, 1000, 500] := by
  have hT : (String.mk (List.replicate 2500 'x')).length = 2500 := by
    rw [string_length_mk, List.length_replicate]
  have h := C6_summarize_spec id (String.mk (List.replicate 2500 'x'))
  have hl : (summarize_chunks (String.mk (List.replicate 2500 'x'))).length = 3 := by
    rw [h.1, hT]
  refine ⟨hl, ?_⟩
  apply List.ext_getElem
  · rw [List.length_map, hl]
    rfl
  · intro i h1 h2
    have hi : i < (summarize_chunks (String.mk (List.replicate 2500 'x'))).length := by
      rw [List.length_map] at h1
      exact h1
    have hg := h.2.1 i hi
    rw [List.get_eq_getElem] at hg
    rw [List.getElem_map, hg]
    have hdata : (String.mk (List.replicate 2500 'x')).data = List.replicate 2500 'x' := rfl
    rw [string_length_mk, hdata]
    have h3 : i < 3 := by
      rw [hl] at hi
      exact hi
    interval_cases i
    · rw [List.drop_replicate, List.take_replicate, List.length_replicate]
      rfl
    · rw [List.drop_replicate, List.take_replicate, List.length_replicate]
      rfl
    · rw [List.drop_replicate, List.take_replicate, List.length_replicate]
      rfl

/-- A category whose keyword list matches a sentence of the document
contributes its full matched-sentence list to `extract_clauses`, and the
trimmed sentence is in that list. -/
theorem extract_mem_of_match {text cat s : String} {kws : List String}
    (hck : (cat, kws) ∈ clause_keywords)
    (hs : s ∈ splitSentences text)
    (hmatch : kws.any (fun k => containsCI s k) = true) :
    (cat, matchedSentences (splitSentences text) kws) ∈ extract_clauses text ∧
      s.trim ∈ matchedSentences (splitSentences text) kws := by
  have hmem : s.trim ∈ matchedSentences (splitSentences text) kws := by
    rw [matchedSentences]
    exact List.mem_map_of_mem _ (List.mem_filter.mpr ⟨hs, hmatch⟩)
  constructor
  · rw [extract_clauses]
    apply List.mem_filterMap.mpr
    refine ⟨(cat, kws), hck, ?_⟩
    have hne : (matchedSentences (splitSentences text) kws).isEmpty = false := by
      rcases h : (matchedSentences (splitSentences text) kws).isEmpty with _ | _
      · rfl
      · rw [List.isEmpty_iff] at h
        rw [h] at hmem
        cases hmem
    simp only [hne]
    rfl
  · exact hmem

/-- Every entry of `extract_clauses` is the matched-sentence list of its
category: the trimmed sentences that match, in document order. -/
theorem extract_entry_shape {text cat : String} {l : List String}
    (h : (cat, l) ∈ extract_clauses text) :
    ∃ kws, (cat, kws) ∈ clause_keywords ∧
      l = matchedSentences (splitSentences text) kws ∧ l ≠ [] := by
  rw [extract_clauses] at h
  rcases List.mem_filterMap.mp h with ⟨⟨cat2, kws⟩, hck, heq⟩
  by_cases hemp : (matchedSentences (splitSentences text) kws).isEmpty
  · simp only [hemp] at heq
    cases heq
  · simp only [Bool.not_eq_true] at hemp
    simp only [hemp] at heq
    have h1 : cat2 = cat ∧ matchedSentences (splitSentences text) kws = l := by
      cases heq
      exact ⟨rfl, rfl⟩
    rcases h1 with ⟨rfl, rfl⟩
    refine ⟨kws, hck, rfl, ?_⟩
    intro hnil
    rw [← List.isEmpty_iff] at hnil
    rw [hnil] at hemp
    cases hemp

/-- C7: a sentence of the document that matches the keyword lists of two
categories appears (trimmed, i.e. verbatim up to whitespace stripping) in
both categories' entries of `extract_clauses`, matching being
case-insensitive substring containment; and every category's entry is an
order-preserving subsequence of the document's trimmed sentence list
(document order). -/
theorem C7_extract_two_categories :
    ∀ (text cat1 cat2 s : String) (kws1 kws2 : List String),
      (cat1, kws1) ∈ clause_keywords → (cat2, kws2) ∈ clause_keywords →
      s ∈ splitSentences text →
      kws1.any (fun k => containsCI s k) = true →
      kws2.any (fun k => containsCI s k) = true →
      (∃ l1, (cat1, l1) ∈ extract_clauses text ∧ s.trim ∈ l1) ∧
      (∃ l2, (cat2, l2) ∈ extract_clauses text ∧ s.trim ∈ l2) ∧
      (∀ cat l, (cat, l) ∈ extract_clauses text →
        l.Sublist ((splitSentences text).map (fun u => u.trim))) := by
  intro text cat1 cat2 s kws1 kws2 h1 h2 hs hm1 hm2
  refine ⟨⟨_, (extract_mem_of_match h1 hs hm1).1, (extract_mem_of_match h1 hs hm1).2⟩,
          ⟨_, (extract_mem_of_match h2 hs hm2).1, (extract_mem_of_match h2 hs hm2).2⟩, ?_⟩
  intro cat l hl
  rcases extract_entry_shape hl with ⟨kws, _, rfl, _⟩
  rw [matchedSentences]
  exact List.Sublist.map _ (List.filter_sublist _)

/-- C7 witness: the sentence `"You must terminate the payment."` matches
both the Termination and the Payment categories on a two-sentence
document and appears, trimmed, in both result lists. -/
theorem C7_extract_witness :
    (∃ l1, ("Termination", l1) ∈ extract_clauses
        "You must terminate the payment. Nothing else here." ∧
      "You must terminate the payment.".trim ∈ l1) ∧
    (∃ l2, ("Payment", l2) ∈ extract_clauses
        "You must terminate the payment. Nothing else here." ∧
      "You must terminate the payment.".trim ∈ l2) := by
  have h := C7_extract_two_categories
    "You must terminate the payment. Nothing else here."
    "Termination" "Payment" "You must terminate the payment."
    ["terminate", "termination", "cancel", "end of agreement"]
    ["payment", "compensation", "fee", "remuneration"]
    (by decide) (by decide) (by decide) (by decide) (by decide)
  exact ⟨h.1, h.2.1⟩

/-- C8: `extract_clauses` on the empty document returns the empty
mapping; a category none of whose keyword lists matches any sentence is
absent from the result; and no category is ever mapped to an empty
sentence list. -/
theorem C8_extract_edge_cases :
    extract_clauses "" = [] ∧
    (∀ (text cat : String),
      (∀ ck ∈ clause_keywords, ck.1 = cat →
        ∀ s ∈ splitSentences text, ck.2.any (fun k => containsCI s k) = false) →
      ∀ l, (cat, l) ∉ extract_clauses text) ∧
    (∀ (text cat : String) (l : List String),
      (cat, l) ∈ extract_clauses text → l ≠ []) := by
  refine ⟨by decide, ?_, ?_⟩
  · intro text cat hno l hl
    rcases extract_entry_shape hl with ⟨kws, hck, hshape, hne⟩
    rcases hshape with rfl
    rcases List.exists_mem_of_ne_nil _ hne with ⟨x, hx⟩
    rw [matchedSentences] at hx
    rcases List.mem_map.mp hx with ⟨s, hsf, _⟩
    rcases List.mem_filter.mp hsf with ⟨hs, hmatch⟩
    rw [hno (cat, kws) hck rfl s hs] at hmatch
    cases hmatch
  · intro text cat l hl
    exact (extract_entry_shape hl).choose_spec.2.2

/-- C8 witness: a document whose only sentence matches no keyword yields
no entry for the Payment category, and the empty document yields the
empty mapping. -/
theorem C8_extract_witness :
    extract_clauses "" = [] ∧
    (∀ l, ("Payment", l) ∉ extract_clauses "The sky is blue.") :=
  ⟨C8_extract_edge_cases.1,
   C8_extract_edge_cases.2.1 "The sky is blue." "Payment" (by decide)⟩

/-- Membership in the two-document vocabulary. -/
theorem mem_vocab {d1 d2 t : String} :
    t ∈ (vocab d1 d2).toFinset ↔ t ∈ tokenize d1 ∨ t ∈ tokenize d2 := by
  rw [List.mem_toFinset, vocab, List.mem_dedup, List.mem_append]

/-- The document frequency over two documents is at most 2. -/
theorem df_le_two (d1 d2 t : String) : df d1 d2 t ≤ 2 := by
  rw [df]
  split <;> split <;> omega

/-- The smooth idf weight is strictly positive (indeed at least 1). -/
theorem idf_pos (d1 d2 t : String) : 0 < idf d1 d2 t := by
  rw [idf]
  have h1 : (1 : ℝ) ≤ 3 / (1 + (df d1 d2 t : ℝ)) := by
    rw [le_div_iff₀ (by positivity)]
    have := df_le_two d1 d2 t
    have h2 : (df d1 d2 t : ℝ) ≤ 2 := by exact_mod_cast this
    linarith
  linarith [Real.log_nonneg h1]

/-- tf-idf weights are nonnegative. -/
theorem tfidfWeight_nonneg (d1 d2 d t : String) : 0 ≤ tfidfWeight d1 d2 d t :=
  mul_nonneg (Nat.cast_nonneg _) (le_of_lt (idf_pos d1 d2 t))

/-- The inner product of two tf-idf vectors is nonnegative. -/
theorem dotW_nonneg (d1 d2 a b : String) : 0 ≤ dotW d1 d2 a b :=
  Finset.sum_nonneg fun t _ =>
    mul_nonneg (tfidfWeight_nonneg d1 d2 a t) (tfidfWeight_nonneg d1 d2 b t)

/-- A self inner product is a sum of squares. -/
theorem dotW_self_eq (d1 d2 a : String) :
    dotW d1 d2 a a = ∑ t ∈ (vocab d1 d2).toFinset, (tfidfWeight d1 d2 a t) ^ 2 := by
  rw [dotW]
  exact Finset.sum_congr rfl fun t _ => (pow_two _).symm

/-- Cauchy–Schwarz for the tf-idf inner product. -/
theorem dotW_cauchy (d1 d2 a b : String) :
    dotW d1 d2 a b ≤ Real.sqrt (dotW d1 d2 a a) * Real.sqrt (dotW d1 d2 b b) := by
  have hsq : (dotW d1 d2 a b) ^ 2 ≤ dotW d1 d2 a a * dotW d1 d2 b b := by
    rw [dotW, dotW_self_eq, dotW_self_eq]
    exact Finset.sum_mul_sq_le_sq_mul_sq _ _ _
  calc dotW d1 d2 a b = Real.sqrt ((dotW d1 d2 a b) ^ 2) :=
        (Real.sqrt_sq (dotW_nonneg d1 d2 a b)).symm
    _ ≤ Real.sqrt (dotW d1 d2 a a * dotW d1 d2 b b) := Real.sqrt_le_sqrt hsq
    _ = Real.sqrt (dotW d1 d2 a a) * Real.sqrt (dotW d1 d2 b b) :=
        Real.sqrt_mul (dotW_nonneg d1 d2 a a) _

/-- Cosine similarity is nonnegative. -/
theorem cosineSimVal_nonneg (a b : String) : 0 ≤ cosineSimVal a b :=
  div_nonneg (dotW_nonneg a b a b)
    (mul_nonneg (Real.sqrt_nonneg _) (Real.sqrt_nonneg _))

/-- Cosine similarity is at most 1. -/
theorem cosineSimVal_le_one (a b : String) : cosineSimVal a b ≤ 1 := by
  rw [cosineSimVal]
  rcases eq_or_lt_of_le
      (mul_nonneg (Real.sqrt_nonneg (dotW a b a a)) (Real.sqrt_nonneg (dotW a b b b)))
    with hz | hp
  · have hd : dotW a b a b = 0 :=
      le_antisymm (by rw [hz] at *; exact (dotW_cauchy a b a b).trans (le_of_eq hz.symm))
        (dotW_nonneg a b a b) |>.symm ▸ rfl
    rw [hd, zero_div]
    norm_num
  · rw [div_le_one hp]
    exact dotW_cauchy a b a b

/-- Identical documents with a nonempty token list have cosine
similarity exactly 1. -/
theorem cosineSimVal_self (s : String) (h : tokenize s ≠ []) :
    cosineSimVal s s = 1 := by
  have hpos : 0 < dotW s s s s := by
    rcases List.exists_mem_of_ne_nil _ h with ⟨t0, ht0⟩
    apply Finset.sum_pos'
    · intro t _
      exact mul_nonneg (tfidfWeight_nonneg s s s t) (tfidfWeight_nonneg s s s t)
    · refine ⟨t0, mem_vocab.mpr (Or.inl ht0), ?_⟩
      have htf : 0 < tf s t0 := List.count_pos_iff.mpr ht0
      have hw : 0 < tfidfWeight s s s t0 :=
        mul_pos (by exact_mod_cast htf) (idf_pos s s t0)
      exact mul_pos hw hw
  rw [cosineSimVal, Real.mul_self_sqrt (dotW_nonneg s s s s)]
  exact div_self (ne_of_gt hpos)

/-- Documents with disjoint token sets have a zero inner product. -/
theorem dotW_disjoint (a b : String) (hdisj : ∀ t ∈ tokenize a, t ∉ tokenize b) :
    dotW a b a b = 0 := by
  apply Finset.sum_eq_zero
  intro t ht
  rcases mem_vocab.mp ht with hta | htb
  · have h0 : tf b t = 0 := by
      rw [tf, List.count_eq_zero]
      exact hdisj t hta
    simp [tfidfWeight, h0]
  · have hna : t ∉ tokenize a := fun hta => hdisj t hta htb
    have h0 : tf a t = 0 := by
      rw [tf, List.count_eq_zero]
      exact hna
    simp [tfidfWeight, h0]

/-- Documents with disjoint token sets have cosine similarity 0. -/
theorem cosineSimVal_disjoint (a b : String)
    (hdisj : ∀ t ∈ tokenize a, t ∉ tokenize b) : cosineSimVal a b = 0 := by
  rw [cosineSimVal, dotW_disjoint a b hdisj, zero_div]

/-- With a nonempty vocabulary the vectorizer succeeds and yields the
cosine similarity. -/
theorem tfidfCosine_of_ne (a b : String) (h : vocab a b ≠ []) :
    tfidfCosine a b = .ok (cosineSimVal a b) := by
  rw [tfidfCosine, if_neg h]

/-- With an empty vocabulary the vectorizer raises. -/
theorem tfidfCosine_of_eq (a b : String) (h : vocab a b = []) :
    tfidfCosine a b = .error () := by
  rw [tfidfCosine, if_pos h]

/-- A successful vectorizer call yields a similarity in `[0, 1]`. -/
theorem tfidfCosine_ok_bounds {a b : String} {s : ℝ}
    (h : tfidfCosine a b = .ok s) : 0 ≤ s ∧ s ≤ 1 := by
  rw [tfidfCosine] at h
  split at h
  · cases h
  · cases h
    exact ⟨cosineSimVal_nonneg a b, cosineSimVal_le_one a b⟩

/-- Rounding to the nearest integer is monotone. -/
theorem round_mono_real {u v : ℝ} (h : u ≤ v) : round u ≤ round v := by
  rw [round_eq, round_eq]
  exact Int.floor_mono (by linarith)

/-- Python rounding of zero: `round(0, 2) = 0`. -/
theorem pyRound2_zero : pyRound2 0 = 0 := by
  rw [pyRound2]
  norm_num

/-- Python rounding of one: `round(1, 2) = 1`. -/
theorem pyRound2_one : pyRound2 1 = 1 := by
  have h1 : (100 : ℝ) * 1 = ((100 : ℤ) : ℝ) := by norm_num
  rw [pyRound2, h1, Int.fract_intCast, round_intCast]
  rw [if_neg (by norm_num : ¬ (0 : ℝ) = 1 / 2)]
  norm_num

/-- Python rounding to two decimals maps `[0, 1]` into `[0, 1]`. -/
theorem pyRound2_bounds {x : ℝ} (h0 : 0 ≤ x) (h1 : x ≤ 1) :
    0 ≤ pyRound2 x ∧ pyRound2 x ≤ 1 := by
  rw [pyRound2]
  have hz : round (0 : ℝ) = 0 := round_zero
  constructor
  · apply div_nonneg _ (by norm_num)
    split
    · have h2 : (0 : ℤ) ≤ round (100 * x / 2) := by
        rw [← hz]
        exact round_mono_real (by linarith)
      have h3 : (0 : ℤ) ≤ 2 * round (100 * x / 2) := by omega
      exact_mod_cast h3
    · have h2 : (0 : ℤ) ≤ round (100 * x) := by
        rw [← hz]
        exact round_mono_real (by linarith)
      exact_mod_cast h2
  · rw [div_le_one (by norm_num)]
    split
    · have h50 : round ((50 : ℝ)) = 50 := by
        have : ((50 : ℤ) : ℝ) = (50 : ℝ) := by norm_num
        rw [← this, round_intCast]
      have h2 : round (100 * x / 2) ≤ (50 : ℤ) := by
        rw [← h50]
        exact round_mono_real (by linarith)
      have h3 : 2 * round (100 * x / 2) ≤ (100 : ℤ) := by omega
      calc ((2 * round (100 * x / 2) : ℤ) : ℝ) ≤ ((100 : ℤ) : ℝ) := by exact_mod_cast h3
        _ = 100 := by norm_num
    · have h100 : round ((100 : ℝ)) = 100 := by
        have : ((100 : ℤ) : ℝ) = (100 : ℝ) := by norm_num
        rw [← this, round_intCast]
      have h2 : round (100 * x) ≤ (100 : ℤ) := by
        rw [← h100]
        exact round_mono_real (by linarith)
      calc ((round (100 * x) : ℤ) : ℝ) ≤ ((100 : ℤ) : ℝ) := by exact_mod_cast h2
        _ = 100 := by norm_num

/-- Running `compareLoop` on an exhausted reference list returns the state. -/
theorem compareLoop_nil (c : String) (m : ℝ) (b : String) :
    compareLoop c [] m b = .ok (m, b) := rfl

/-- One step of `compareLoop`. -/
theorem compareLoop_cons (c label standard : String)
    (rest : List (String × String)) (m : ℝ) (b : String) :
    compareLoop c ((label, standard) :: rest) m b =
      match tfidfCosine c standard with
      | .error e => .error e
      | .ok sim =>
        if m < sim then compareLoop c rest sim standard
        else compareLoop c rest m b := rfl

/-- One step of `compareLoop` when the vectorizer succeeds. -/
theorem compareLoop_cons_of_ok {c standard : String} {sim : ℝ}
    (label : String) (rest : List (String × String)) (m : ℝ) (b : String)
    (h : tfidfCosine c standard = .ok sim) :
    compareLoop c ((label, standard) :: rest) m b =
      if m < sim then compareLoop c rest sim standard
      else compareLoop c rest m b := by
  rw [compareLoop_cons, h]

/-- One step of `compareLoop` when the vectorizer raises. -/
theorem compareLoop_cons_of_error {c standard : String}
    (label : String) (rest : List (String × String)) (m : ℝ) (b : String)
    (h : tfidfCosine c standard = .error ()) :
    compareLoop c ((label, standard) :: rest) m b = .error () := by
  rw [compareLoop_cons, h]

/-- If `compareLoop` succeeds starting from a state in `[0, 1]`, the
resulting maximal similarity is in `[0, 1]`. -/
theorem compareLoop_ok_range (c : String) :
    ∀ (refs : List (String × String)) (m : ℝ) (b : String) (p : ℝ × String),
      0 ≤ m → m ≤ 1 → compareLoop c refs m b = .ok p → 0 ≤ p.1 ∧ p.1 ≤ 1 := by
  intro refs
  induction refs with
  | nil =>
    intro m b p h0 h1 heq
    rw [compareLoop_nil] at heq
    cases heq
    exact ⟨h0, h1⟩
  | cons hd tl ih =>
    intro m b p h0 h1 heq
    obtain ⟨label, standard⟩ := hd
    cases htc : tfidfCosine c standard with
    | error e =>
      cases e
      rw [compareLoop_cons_of_error label tl m b htc] at heq
      cases heq
    | ok sim =>
      rw [compareLoop_cons_of_ok label tl m b htc] at heq
      have hb := tfidfCosine_ok_bounds htc
      by_cases hlt : m < sim
      · rw [if_pos hlt] at heq
        exact ih sim standard p hb.1 hb.2 heq
      · rw [if_neg hlt] at heq
        exact ih m b p h0 h1 heq

/-- If every reference scores similarity 0, `compareLoop` keeps the
initial `(0, "")` state. -/
theorem compareLoop_all_zero (c : String) :
    ∀ refs : List (String × String),
      (∀ r ∈ refs, tfidfCosine c r.2 = .ok 0) →
      compareLoop c refs 0 "" = .ok (0, "") := by
  intro refs
  induction refs with
  | nil => intro _; exact compareLoop_nil c 0 ""
  | cons hd tl ih =>
    intro hall
    obtain ⟨label, standard⟩ := hd
    have htc : tfidfCosine c standard = .ok 0 := hall (label, standard) (by simp)
    rw [compareLoop_cons_of_ok label tl 0 "" htc, if_neg (lt_irrefl 0)]
    exact ih fun r hr => hall r (List.mem_cons_of_mem _ hr)

/-- The selection behavior of `compareLoop`: starting from `(m, b)`, if
no reference beats `m` the state is kept; otherwise the loop returns the
first reference attaining the maximal similarity, which all earlier
references score strictly below. -/
theorem compareLoop_argmax (c : String) :
    ∀ (refs : List (String × String)) (m : ℝ) (b : String),
      (∀ r ∈ refs, vocab c r.2 ≠ []) →
      ((∀ r ∈ refs, cosineSimVal c r.2 ≤ m) ∧
          compareLoop c refs m b = .ok (m, b)) ∨
      (∃ l1 r l2, refs = l1 ++ r :: l2 ∧
          m < cosineSimVal c r.2 ∧
          (∀ x ∈ l1, cosineSimVal c x.2 < cosineSimVal c r.2) ∧
          (∀ x ∈ refs, cosineSimVal c x.2 ≤ cosineSimVal c r.2) ∧
          compareLoop c refs m b = .ok (cosineSimVal c r.2, r.2)) := by
  intro refs
  induction refs with
  | nil =>
    intro m b _
    left
    exact ⟨by simp, compareLoop_nil c m b⟩
  | cons hd tl ih =>
    intro m b hvoc
    obtain ⟨label, standard⟩ := hd
    have hv : vocab c standard ≠ [] := hvoc (label, standard) (by simp)
    have htc : tfidfCosine c standard = .ok (cosineSimVal c standard) :=
      tfidfCosine_of_ne c standard hv
    have hvt : ∀ r ∈ tl, vocab c r.2 ≠ [] :=
      fun r hr => hvoc r (List.mem_cons_of_mem _ hr)
    by_cases hlt : m < cosineSimVal c standard
    · rcases ih (cosineSimVal c standard) standard hvt with
        ⟨hall, heq⟩ | ⟨l1, r, l2, hsplit, hmr, hl1, hall, heq⟩
      · right
        refine ⟨[], (label, standard), tl, rfl, hlt, by simp, ?_, ?_⟩
        · intro x hx
          rcases List.mem_cons.mp hx with rfl | hx2
          · exact le_refl _
          · exact hall x hx2
        · rw [compareLoop_cons_of_ok label tl m b htc, if_pos hlt]
          exact heq
      · right
        refine ⟨(label, standard) :: l1, r, l2, by simp [hsplit], lt_trans hlt hmr,
          ?_, ?_, ?_⟩
        · intro x hx
          rcases List.mem_cons.mp hx with rfl | hx2
          · exact hmr
          · exact hl1 x hx2
        · intro x hx
          rcases List.mem_cons.mp hx with rfl | hx2
          · exact le_of_lt hmr
          · exact hall x hx2
        · rw [compareLoop_cons_of_ok label tl m b htc, if_pos hlt]
          exact heq
    · have hle : cosineSimVal c standard ≤ m := not_lt.mp hlt
      rcases ih m b hvt with
        ⟨hall, heq⟩ | ⟨l1, r, l2, hsplit, hmr, hl1, hall, heq⟩
      · left
        refine ⟨?_, ?_⟩
        · intro x hx
          rcases List.mem_cons.mp hx with rfl | hx2
          · exact hle
          · exact hall x hx2
        · rw [compareLoop_cons_of_ok label tl m b htc, if_neg hlt]
          exact heq
      · right
        refine ⟨(label, standard) :: l1, r, l2, by simp [hsplit],
          hmr, ?_, ?_, ?_⟩
        · intro x hx
          rcases List.mem_cons.mp hx with rfl | hx2
          · exact lt_of_le_of_lt hle hmr
          · exact hl1 x hx2
        · intro x hx
          rcases List.mem_cons.mp hx with rfl | hx2
          · exact le_of_lt (lt_of_le_of_lt hle hmr)
          · exact hall x hx2
        · rw [compareLoop_cons_of_ok label tl m b htc, if_neg hlt]
          exact heq

/-- Comparing no clauses yields the empty result. -/
theorem compare_nil (refs : List (String × String)) :
    compare_with_standard_clauses [] refs = .ok [] := rfl

/-- Unfolding `compare_with_standard_clauses` one clause at a time. -/
theorem compare_cons (c : String) (cs : List String)
    (refs : List (String × String)) :
    compare_with_standard_clauses (c :: cs) refs =
      Except.bind (compareLoop c refs 0 "") (fun r =>
        Except.bind (compare_with_standard_clauses cs refs) (fun tail =>
          Except.ok ((c, r.2, pyRound2 r.1) :: tail))) := rfl

/-- A single-clause comparison reports the loop state. -/
theorem compare_single_of_loop {c : String} {refs : List (String × String)}
    {m : ℝ} {b : String} (h : compareLoop c refs 0 "" = .ok (m, b)) :
    compare_with_standard_clauses [c] refs = .ok [(c, b, pyRound2 m)] := by
  rw [compare_cons, h]
  rfl

/-- A single-clause comparison propagates a vectorizer error. -/
theorem compare_single_of_error {c : String} {refs : List (String × String)}
    (h : compareLoop c refs 0 "" = .error ()) :
    compare_with_standard_clauses [c] refs = .error () := by
  rw [compare_cons, h]
  rfl

/-- A token of the first document is in the vocabulary of the pair. -/
theorem vocab_ne_of_left {a b t : String} (h : t ∈ tokenize a) :
    vocab a b ≠ [] := by
  intro hnil
  have : t ∈ (vocab a b).toFinset := mem_vocab.mpr (Or.inl h)
  rw [hnil] at this
  cases this

/-- When both documents tokenize to nothing, the single-clause
comparison raises the empty-vocabulary error. -/
theorem compare_single_tokenless {c r : String} (label : String)
    (hc : tokenize c = []) (hr : tokenize r = []) :
    compare_with_standard_clauses [c] [(label, r)] = .error () := by
  have hvoc : vocab c r = [] := by
    rw [vocab, hc, hr]
    rfl
  apply compare_single_of_error
  exact compareLoop_cons_of_error label [] 0 "" (tfidfCosine_of_eq c r hvoc)

/-- Comparing a tokenizable string with itself yields the match `(s, 1)`. -/
theorem compare_single_self {s : String} (label : String)
    (h : tokenize s ≠ []) :
    compare_with_standard_clauses [s] [(label, s)] = .ok [(s, s, 1)] := by
  rcases List.exists_mem_of_ne_nil _ h with ⟨t0, ht0⟩
  have hv : vocab s s ≠ [] := vocab_ne_of_left ht0
  have htc : tfidfCosine s s = .ok 1 := by
    rw [tfidfCosine_of_ne s s hv, cosineSimVal_self s h]
  have hloop : compareLoop s [(label, s)] 0 "" = .ok (1, s) := by
    rw [compareLoop_cons_of_ok label [] 0 "" htc,
      if_pos (by norm_num : (0 : ℝ) < 1)]
    exact compareLoop_nil s 1 s
  rw [compare_single_of_loop hloop, pyRound2_one]

/-- Comparing token-disjoint strings (with a nonempty vocabulary) keeps
the initial `("", 0)` state. -/
theorem compare_single_disjoint {s r : String} (label : String)
    (hdisj : ∀ t ∈ tokenize s, t ∉ tokenize r) (hvoc : vocab s r ≠ []) :
    compare_with_standard_clauses [s] [(label, r)] = .ok [(s, "", 0)] := by
  have htc : tfidfCosine s r = .ok 0 := by
    rw [tfidfCosine_of_ne s r hvoc, cosineSimVal_disjoint s r hdisj]
  have hloop : compareLoop s [(label, r)] 0 "" = .ok (0, "") := by
    rw [compareLoop_cons_of_ok label [] 0 "" htc, if_neg (lt_irrefl (0 : ℝ))]
    exact compareLoop_nil s 0 ""
  rw [compare_single_of_loop hloop, pyRound2_zero]

/-- Every score in a successful comparison lies in `[0, 1]`. -/
theorem compare_ok_range :
    ∀ (clauses : List String) (refs : List (String × String))
      (out : List (String × String × ℝ)),
      compare_with_standard_clauses clauses refs = .ok out →
      ∀ x ∈ out, 0 ≤ x.2.2 ∧ x.2.2 ≤ 1 := by
  intro clauses
  induction clauses with
  | nil =>
    intro refs out heq x hx
    rw [compare_nil] at heq
    cases heq
    cases hx
  | cons c cs ih =>
    intro refs out heq x hx
    rw [compare_cons] at heq
    cases hloop : compareLoop c refs 0 "" with
    | error e =>
      rw [hloop] at heq
      cases heq
    | ok r =>
      rw [hloop] at heq
      cases htail : compare_with_standard_clauses cs refs with
      | error e =>
        rw [htail] at heq
        cases heq
      | ok tail =>
        rw [htail] at heq
        cases heq
        rcases List.mem_cons.mp hx with rfl | hx2
        · have hr := compareLoop_ok_range c refs 0 "" r (le_refl 0)
            (by norm_num) hloop
          exact pyRound2_bounds hr.1 hr.2
        · exact ih refs tail htail x hx2

/-- C1 counterexample: on the degenerate pair of two identical empty
strings (`compare_with_standard_clauses([""], {"ref": ""})`, the app's
comparison call shape), the comparison does not return similarity 0 — the
vectorizer raises the empty-vocabulary error and the whole call fails. -/
theorem C1_counterexample :
    compare_with_standard_clauses [""] [("ref", "")] = .error () :=
  compare_single_tokenless "ref" rfl rfl

/-- C1 (amended): whenever the clause and the reference both produce no
tokens — in particular for two identical empty strings — the
`TfidfVectorizer` fit raises an empty-vocabulary error and
`compare_with_standard_clauses` propagates it instead of returning a
similarity score of 0. -/
theorem C1_empty_pair_raises :
    ∀ (c r label : String), tokenize c = [] → tokenize r = [] →
      compare_with_standard_clauses [c] [(label, r)] = .error () :=
  fun _ _ label hc hr => compare_single_tokenless label hc hr

/-- C1 witness: two non-empty but token-free strings (no run of two word
characters) also raise the empty-vocabulary error. -/
theorem C1_empty_pair_witness :
    compare_with_standard_clauses ["!!"] [("ref", "x")] = .error () :=
  C1_empty_pair_raises "!!" "x" "ref" (by decide) (by decide)

/-- C4 counterexample: the identical non-empty pair `("a", "a")` does not
yield score 1.0 — `"a"` contains no token of length at least two, so the
vectorizer raises the empty-vocabulary error instead of returning a
score. -/
theorem C4_counterexample :
    ("a" : String) ≠ "" ∧
    compare_with_standard_clauses ["a"] [("ref", "a")] = .error () :=
  ⟨by decide, compare_single_tokenless "ref" (by decide) (by decide)⟩

/-- C4 (amended): every score of a successful comparison lies in
`[0, 1]`; identical strings with at least one token yield exactly score
1.0; token-disjoint strings (with at least one token between them) yield
exactly score 0.0.  (Identical strings with no token, such as `"a"`,
raise the empty-vocabulary error instead, per the counterexample.) -/
theorem C4_similarity_spec :
    (∀ (clauses : List String) (refs : List (String × String)) out,
      compare_with_standard_clauses clauses refs = .ok out →
      ∀ x ∈ out, 0 ≤ x.2.2 ∧ x.2.2 ≤ 1) ∧
    (∀ (s label : String), tokenize s ≠ [] →
      compare_with_standard_clauses [s] [(label, s)] = .ok [(s, s, 1)]) ∧
    (∀ (s r label : String), (∀ t ∈ tokenize s, t ∉ tokenize r) →
      vocab s r ≠ [] →
      compare_with_standard_clauses [s] [(label, r)] = .ok [(s, "", 0)]) :=
  ⟨compare_ok_range,
   fun _ label h => compare_single_self label h,
   fun _ _ label hd hv => compare_single_disjoint label hd hv⟩

/-- C4 witness: an identical pair scores 1.0, a disjoint pair scores
0.0, and the returned score 1 is inside `[0, 1]`. -/
theorem C4_similarity_witness :
    compare_with_standard_clauses ["hello world"] [("ref", "hello world")] =
      .ok [("hello world", "hello world", 1)] ∧
    compare_with_standard_clauses ["hello"] [("ref", "world")] =
      .ok [("hello", "", 0)] ∧
    ((0 : ℝ) ≤ 1 ∧ (1 : ℝ) ≤ 1) := by
  have h2 := C4_similarity_spec.2.1 "hello world" "ref" (by decide)
  have h3 := C4_similarity_spec.2.2 "hello" "world" "ref" (by decide) (by decide)
  have h1 := C4_similarity_spec.1 ["hello world"] [("ref", "hello world")] _ h2
    ("hello world", "hello world", (1 : ℝ)) (by simp)
  exact ⟨h2, h3, h1⟩

/-- C5 counterexample: for the clause `"hello"` against the single
reference `"world"` (similarity 0), the returned best match is the empty
string `""`, which is not the reference text achieving the maximal
similarity — no reference text is ever the empty string here. -/
theorem C5_counterexample :
    compare_with_standard_clauses ["hello"] [("r1", "world")] =
      .ok [("hello", "", 0)] ∧
    ∀ p ∈ [("r1", "world")], p.2 ≠ "" := by
  constructor
  · exact compare_single_disjoint "r1" (by decide) (by decide)
  · decide

/-- C5 (amended): provided every clause/reference pair has a nonempty
vocabulary and some reference attains a strictly positive similarity,
`compare_with_standard_clauses` returns the first reference attaining the
maximal cosine similarity, with the score rounded to two decimals; all
references preceding it score strictly lower (strict-`>` update, i.e.
ties favor the first-encountered reference).  When every similarity is 0
the function instead reports the empty string, not a reference. -/
theorem C5_best_match_spec :
    ∀ (clause : String) (refs : List (String × String)),
      (∀ r ∈ refs, vocab clause r.2 ≠ []) →
      (∃ r ∈ refs, 0 < cosineSimVal clause r.2) →
      ∃ l1 r l2, refs = l1 ++ r :: l2 ∧
        (∀ x ∈ refs, cosineSimVal clause x.2 ≤ cosineSimVal clause r.2) ∧
        (∀ x ∈ l1, cosineSimVal clause x.2 < cosineSimVal clause r.2) ∧
        compare_with_standard_clauses [clause] refs =
          .ok [(clause, r.2, pyRound2 (cosineSimVal clause r.2))] := by
  intro clause refs hvoc hex
  rcases compareLoop_argmax clause refs 0 "" hvoc with
    ⟨hall, _⟩ | ⟨l1, r, l2, hsplit, _, hl1, hall, heq⟩
  · rcases hex with ⟨r, hr, hpos⟩
    exact absurd (hall r hr) (not_le.mpr hpos)
  · exact ⟨l1, r, l2, hsplit, hall, hl1, compare_single_of_loop heq⟩

/-- C5 witness: with the identical reference `"hello"` (similarity 1),
the loop selects that reference. -/
theorem C5_best_match_witness :
    ∃ l1 r l2, [("r1", "hello")] = l1 ++ r :: l2 ∧
      (∀ x ∈ [("r1", "hello")],
        cosineSimVal "hello" x.2 ≤ cosineSimVal "hello" r.2) ∧
      (∀ x ∈ l1, cosineSimVal "hello" x.2 < cosineSimVal "hello" r.2) ∧
      compare_with_standard_clauses ["hello"] [("r1", "hello")] =
        .ok [("hello", r.2, pyRound2 (cosineSimVal "hello" r.2))] :=
  C5_best_match_spec "hello" [("r1", "hello")] (by decide)
    ⟨("r1", "hello"), by simp,
      by rw [cosineSimVal_self "hello" (by decide)]; norm_num⟩

/-- C10: when every reference of a non-empty mapping has similarity 0 to
the clause, `compare_with_standard_clauses` reports the empty string and
score 0 — the reported match is not any supplied reference. -/
theorem C10_all_zero_empty_match :
    ∀ (clause : String) (refs : List (String × String)),
      refs ≠ [] →
      (∀ r ∈ refs, tfidfCosine clause r.2 = .ok 0) →
      compare_with_standard_clauses [clause] refs = .ok [(clause, "", 0)] := by
  intro clause refs _ hall
  rw [compare_single_of_loop (compareLoop_all_zero clause refs hall), pyRound2_zero]

/-- C10 witness: two references, both token-disjoint from the clause,
yield the empty-string match with score 0. -/
theorem C10_all_zero_witness :
    compare_with_standard_clauses ["hello"] [("r1", "world"), ("r2", "moon")] =
      .ok [("hello", "", 0)] := by
  apply C10_all_zero_empty_match "hello" [("r1", "world"), ("r2", "moon")] (by decide)
  intro r hr
  rcases List.mem_cons.mp hr with rfl | hr2
  · rw [tfidfCosine_of_ne _ _ (by decide), cosineSimVal_disjoint _ _ (by decide)]
  · rcases List.mem_singleton.mp hr2 with rfl
    rw [tfidfCosine_of_ne _ _ (by decide), cosineSimVal_disjoint _ _ (by decide)]
